import Mathlib

/-!
Shallow embedding of the ProcTools run-tracking core (`proctools/manager.py`,
with the near-duplicate revision in `proctools/meta.py`), the email-address
extraction helper (`proctools/communicate.py`), and the datetime parsing
helper (`proctools/value.py`), together with theorems settling the
specification claims about them.

Modelling conventions:
* Python exceptions are values of `PyErr`; a raising call returns
  `Except.error e`, a returning call `Except.ok v`.
* The sqlite run-results database is a list of `Job_Run` rows in rowid
  (insertion) order; sqlite's rowid assignment is `max existing id + 1`.
* Wall-clock timestamps are abstract ticks (`Nat`): `datetime.now()` reads the
  current tick and advances the clock.  The separate `PyDatetime` model below
  handles the textual `isoformat`/parse round trip at full precision.
-/

namespace ProcTools

/-- Python exception values relevant to the modelled code: `ValueError`,
`TypeError`, and arbitrary exceptions raised by attached procedures
(distinguished by a numeric payload, so that "re-raised unchanged" is
expressible). -/
inductive PyErr where
  | valueError : PyErr
  | typeError : PyErr
  | exc : Nat → PyErr
deriving DecidableEq, Repr

/-- Mapping `RUN_STATUS_DESCRIPTION` from `manager.py` line 43 (identical in
`meta.py` line 44): mapping of status code to description.  Python dict
lookup that misses is modelled by `none`. -/
def runStatusDescription (v : Int) : Option String :=
  if v = 1 then some "complete"
  else if v = 0 then some "failed"
  else if v = -1 then some "incomplete"
  else none

/-- A row of the `Job_Run` table (`Job_Run(id, job_id, status, start_time,
end_time nullable)`, schema per the store contract).  `start_time` is an
abstract clock tick; `end_time` is `none` for SQL NULL. -/
structure JobRun where
  id : Nat
  status : Int
  job_id : Nat
  start_time : Nat
  end_time : Option Nat
deriving DecidableEq, Repr

/-- The run-results store plus the wall clock: rows of `Job_Run` in rowid
order, and the next `datetime.now()` tick. -/
structure Sys where
  rows : List JobRun
  clock : Nat
deriving DecidableEq, Repr

/-- sqlite rowid assignment for an INSERT into `Job_Run`: one more than the
largest existing rowid. -/
def nextId (rows : List JobRun) : Nat :=
  rows.foldr (fun r acc => max r.id acc) 0 + 1

/-- Query `SELECT id FROM Job_Run WHERE job_id = ? AND start_time = ?;` followed by
`fetchone()`: the first row in rowid order matching both columns, if any
(`manager.py` lines 258-263). -/
def selectIdByJobStart (rows : List JobRun) (jid t : Nat) : Option Nat :=
  (rows.find? (fun r => r.job_id = jid ∧ r.start_time = t)).map JobRun.id

/-- The per-instance state of a `Job` object that the `run_status` setter
touches: its `job_id` and its `run_id` (None until the first status write). -/
structure JobState where
  job_id : Nat
  run_id : Option Nat
deriving DecidableEq, Repr

/-- The `Job.run_status` setter (`manager.py` lines 245-270; `meta.py` lines
479-502 is behaviourally identical).  Rejects values outside
`RUN_STATUS_DESCRIPTION` with `ValueError` before any database access.  On
first write (`run_id is None`) INSERTs a row `(status, job_id, start_time)`
— `end_time` absent, hence NULL — then SELECTs the row id back by
`(job_id, start_time)` and stores it in `run_id` (`fetchone()[0]` on an
empty result would raise `TypeError`).  On later writes UPDATEs the row
with id `run_id`, setting `end_time` to NULL when the value is -1 and to
`datetime.now()` otherwise. -/
def setRunStatus (sys : Sys) (js : JobState) (value : Int) :
    Except PyErr (Sys × JobState) :=
  if (runStatusDescription value).isNone then
    .error .valueError
  else
    match js.run_id with
    | none =>
      let start_time := sys.clock
      let row : JobRun :=
        { id := nextId sys.rows, status := value, job_id := js.job_id,
          start_time := start_time, end_time := none }
      let sys1 : Sys := { rows := sys.rows ++ [row], clock := sys.clock + 1 }
      match selectIdByJobStart sys1.rows js.job_id start_time with
      | some rid => .ok (sys1, { js with run_id := some rid })
      | none => .error .typeError
    | some rid =>
      let end_time : Option Nat := if value = -1 then none else some sys.clock
      let clock1 : Nat := if value = -1 then sys.clock else sys.clock + 1
      let rows1 : List JobRun := sys.rows.map (fun r =>
        if r.id = rid then { r with status := value, end_time := end_time } else r)
      .ok ({ rows := rows1, clock := clock1 }, js)

/-- Clock-freshness invariant of the store: every stored `start_time` was read
from the clock strictly before its current tick.  It holds of the empty store
and is preserved by the setter. -/
def Inv (sys : Sys) : Prop :=
  ∀ r ∈ sys.rows, r.start_time < sys.clock

instance : DecidablePred Inv := fun sys =>
  inferInstanceAs (Decidable (∀ r ∈ sys.rows, r.start_time < sys.clock))

/-- Property `Batch.status` (`manager.py` lines 137-145; `meta.py` lines 137-144):
over the statuses of the batch's `Last_Job_Run` rows, `1 if all(status == 1
for status, in cursor) else -1`. -/
def batchStatus (statuses : List Int) : Int :=
  if statuses.all (fun s => s = 1) then 1 else -1

/-- An attached procedure: a zero-argument callable, identified by `pid` for
the execution trace, whose call either returns (`raises = none`) or raises an
exception with payload `c` (`raises = some c`, modelling `PyErr.exc c`). -/
structure Proc where
  pid : Nat
  raises : Option Nat
deriving DecidableEq, Repr

/-- A `Job` object as `Pipeline.execute` sees it: its `Job` table id, its
current `run_id` (class default `None` for a fresh instance, `manager.py`
line 207), and its attached procedures. -/
structure PJob where
  job_id : Nat
  run_id : Option Nat
  procedures : List Proc
deriving DecidableEq, Repr

/-- A pipeline member: a `Job` instance, a bare function (assumed to be a
procedure), or an invalid member type (`manager.py` lines 324-337). -/
inductive Member where
  | job : PJob → Member
  | funcMember : Proc → Member
  | invalid : Member
deriving DecidableEq, Repr

/-- Run a member's procedures strictly in order (`manager.py` lines 341-346):
each call is appended to the trace; an exception is re-raised immediately,
abandoning the remaining procedures.  Returns the extended trace and the
payload of the raised exception, if any. -/
def runProcs (trace : List Nat) : List Proc → List Nat × Option Nat
  | [] => (trace, none)
  | p :: rest =>
    match p.raises with
    | some c => (trace ++ [p.pid], some c)
    | none => runProcs (trace ++ [p.pid]) rest

/-- Method `Pipeline.execute` (`manager.py` lines 318-351) over a member list,
threading the store/clock state and a trace of invoked procedure ids.  For a
`Job` member: write `run_status = -1`, run its procedures, and only on full
success write `run_status = 1`; an exception from a procedure propagates
immediately (returned as `some e`), leaving the store as already written.  A
bare function is run as a single procedure; any other member raises
`TypeError` ("Invalid pipeline member type").  The result is the final store
state, the full trace, and the propagated exception if one was raised. -/
def executeMembers (sys : Sys) (trace : List Nat) :
    List Member → Sys × List Nat × Option PyErr
  | [] => (sys, trace, none)
  | .job j :: rest =>
    match setRunStatus sys { job_id := j.job_id, run_id := j.run_id } (-1) with
    | .error e => (sys, trace, some e)
    | .ok (sys1, js) =>
      match runProcs trace j.procedures with
      | (trace1, some c) => (sys1, trace1, some (.exc c))
      | (trace1, none) =>
        match setRunStatus sys1 js 1 with
        | .error e => (sys1, trace1, some e)
        | .ok (sys2, _) => executeMembers sys2 trace1 rest
  | .funcMember p :: rest =>
    match p.raises with
    | some c => (sys, trace ++ [p.pid], some (.exc c))
    | none => executeMembers sys (trace ++ [p.pid]) rest
  | .invalid :: _ => (sys, trace, some .typeError)

/-- The four notification address lists of a batch, as returned by
`Batch.notification_addresses` (`manager.py` lines 112-135). -/
structure NotificationAddresses where
  to_addresses : List String
  copy_addresses : List String
  blind_copy_addresses : List String
  reply_to_addresses : List String
deriving DecidableEq, Repr

/-- The argument record a `send_email_smtp` call would receive from
`Batch.send_notification` (the modelled collaborator invocation). -/
structure SendEmailCall where
  to_addresses : List String
  copy_addresses : List String
  blind_copy_addresses : List String
  reply_to_addresses : List String
  subject : String
deriving DecidableEq, Repr

/-- Method `Batch.send_notification` (`manager.py` lines 152-192): if none of
`to_addresses`, `copy_addresses`, `blind_copy_addresses` is non-empty
(`not any(...)` over those three lists — Python list truthiness), it logs and
returns without calling `send_email_smtp`; otherwise it invokes
`send_email_smtp` with all four address lists and subject
`"Processing Batch: {name} ({status_description})"`.  The invocation (or its
absence) is the returned `Option`.  `batchStatus` only ever yields 1 or -1,
so the `status_description` lookup always succeeds; `getD` supplies an
unreachable default. -/
def sendNotification (name : String) (statuses : List Int)
    (a : NotificationAddresses) : Option SendEmailCall :=
  if a.to_addresses.isEmpty && a.copy_addresses.isEmpty &&
      a.blind_copy_addresses.isEmpty then
    none
  else
    some
      { to_addresses := a.to_addresses
        copy_addresses := a.copy_addresses
        blind_copy_addresses := a.blind_copy_addresses
        reply_to_addresses := a.reply_to_addresses
        subject := "Processing Batch: " ++ name ++ " (" ++
          (runStatusDescription (batchStatus statuses)).getD "" ++ ")" }

/-- Character class of the pattern `[\w\.-]` used by
`extract_email_addresses` (`communicate.py` line 39): word characters
(letters, digits, underscore — ASCII here), dot, and hyphen. -/
def emailChar (c : Char) : Bool :=
  c.isAlphanum || c == '_' || c == '.' || c == '-'

/-- Scan `re.findall(r"[\w\.-]+@[\w\.-]+", source)`: leftmost non-overlapping
matches, each a maximal run of class characters, an `@`, and a maximal
non-empty run of class characters.  Since `@` is not in the class, no
backtracking can rescue a failed attempt, so a linear scan is equivalent:
skip non-class characters; at a class character take the maximal run; if it
is not followed by `@` and a class character, no match can start inside the
run (or at the `@`), so resume after it; otherwise emit the match and resume
after its second run. -/
def findEmailsAux (fuel : Nat) (l : List Char) : List (List Char) :=
  match fuel with
  | 0 => []
  | fuel + 1 =>
    match l with
    | [] => []
    | c :: rest =>
      if emailChar c then
        match rest.dropWhile emailChar with
        | '@' :: rest2 =>
          match rest2.takeWhile emailChar with
          | [] => findEmailsAux fuel rest2
          | d :: tl =>
            ((c :: rest.takeWhile emailChar) ++ '@' :: d :: tl) ::
              findEmailsAux fuel (rest2.dropWhile emailChar)
        | _ => findEmailsAux fuel (rest.dropWhile emailChar)
      else findEmailsAux fuel rest

/-- Entry point for the scan: every recursive step continues on a strict
suffix of the input, so `length + 1` steps always complete the scan. -/
def findEmails (l : List Char) : List (List Char) :=
  findEmailsAux (l.length + 1) l

/-- A Python value as `extract_email_addresses` can receive it: a `str`, a
`bytes` (carrying its UTF-8 decoding), a `list`, a `dict` (association list
in insertion order), or a non-iterable such as an `int`. -/
inductive PyVal where
  | pyStr : String → PyVal
  | pyBytes : String → PyVal
  | pyList : List PyVal → PyVal
  | pyDict : List (PyVal × PyVal) → PyVal
  | pyInt : Int → PyVal

mutual
/-- Generator `extract_email_addresses` applied to one source (`communicate.py` lines
19-50).  `bytes` are decoded to `str`; a `str` is scanned with
`re.findall(r"[\w\.-]+@[\w\.-]+", ...)`.  Because the
`isinstance(source, Iterable)` branch precedes the `isinstance(source, dict)`
branch and a `dict` *is* `Iterable` — iteration yielding its *keys* — a
`dict` source recurses over its keys only; the `source.items()` branch is
unreachable.  Unsupported types yield nothing. -/
def extractEmailAddresses : PyVal → List String
  | .pyStr s => (findEmails s.toList).map List.asString
  | .pyBytes s => (findEmails s.toList).map List.asString
  | .pyList xs => extractFromList xs
  | .pyDict kvs => extractFromKeys kvs
  | .pyInt _ => []

/-- Recursion `yield from extract_email_addresses(*source)` over a list's elements. -/
def extractFromList : List PyVal → List String
  | [] => []
  | x :: rest => extractEmailAddresses x ++ extractFromList rest

/-- Recursion `yield from extract_email_addresses(*source)` over a dict: Python dict
iteration yields the keys, not the values. -/
def extractFromKeys : List (PyVal × PyVal) → List String
  | [] => []
  | (k, _) :: rest => extractEmailAddresses k ++ extractFromKeys rest
end

/-- A Python `datetime.datetime` value broken into its components. -/
structure PyDatetime where
  year : Nat
  month : Nat
  day : Nat
  hour : Nat
  minute : Nat
  second : Nat
  microsecond : Nat
deriving DecidableEq, Repr

/-- Gregorian leap-year rule, as `datetime` uses it. -/
def isLeapYear (y : Nat) : Bool :=
  (y % 4 == 0 && y % 100 != 0) || y % 400 == 0

/-- Number of days in a month, as `datetime` validates. -/
def daysInMonth (y m : Nat) : Nat :=
  if m = 2 then (if isLeapYear y then 29 else 28)
  else if m = 4 ∨ m = 6 ∨ m = 9 ∨ m = 11 then 30
  else 31

/-- The component ranges a constructible `datetime.datetime` satisfies. -/
def ValidDatetime (d : PyDatetime) : Prop :=
  1 ≤ d.year ∧ d.year ≤ 9999 ∧ 1 ≤ d.month ∧ d.month ≤ 12 ∧
  1 ≤ d.day ∧ d.day ≤ daysInMonth d.year d.month ∧
  d.hour ≤ 23 ∧ d.minute ≤ 59 ∧ d.second ≤ 59 ∧ d.microsecond ≤ 999999

instance : DecidablePred ValidDatetime := fun d => by
  unfold ValidDatetime
  infer_instance

/-- The decimal digit character for `n % 10`. -/
def digitChar (n : Nat) : Char :=
  Char.ofNat (48 + n % 10)

/-- Numeric value of a digit character. -/
def digitVal (c : Char) : Nat :=
  c.toNat - 48

/-- Rendering `"%02d"`, zero-padded (exact for `n < 100`). -/
def pad2 (n : Nat) : List Char :=
  [digitChar (n / 10), digitChar n]

/-- Rendering `"%04d"`, zero-padded (exact for `n < 10000`). -/
def pad4 (n : Nat) : List Char :=
  [digitChar (n / 1000), digitChar (n / 100), digitChar (n / 10), digitChar n]

/-- Rendering `"%06d"`, zero-padded (exact for `n < 1000000`). -/
def pad6 (n : Nat) : List Char :=
  [digitChar (n / 100000), digitChar (n / 10000), digitChar (n / 1000),
    digitChar (n / 100), digitChar (n / 10), digitChar n]

/-- Rendering `datetime.isoformat(" ")`, the `start_time` text the `Job.run_status`
setter writes (`manager.py` line 251): `"YYYY-MM-DD HH:MM:SS"`, with
`".ffffff"` appended exactly when the microsecond component is non-zero. -/
def isoformat (d : PyDatetime) : List Char :=
  pad4 d.year ++ '-' :: pad2 d.month ++ '-' :: pad2 d.day ++ ' ' ::
    pad2 d.hour ++ ':' :: pad2 d.minute ++ ':' :: pad2 d.second ++
    (if d.microsecond = 0 then [] else '.' :: pad6 d.microsecond)

/-- Parser `dateutil.parser.parse` restricted to the ISO `"YYYY-MM-DD HH:MM:SS"`
(optionally `".ffffff"`) texts the store writer produces: fixed-width fields,
digit checks, and the component-range checks the `datetime` constructor
performs; anything else raises `ValueError` (dateutil's `ParserError`).
This models the external parser only on the writer's output format, which is
all the round-trip claim needs. -/
def parseIsoDatetime : List Char → Except PyErr PyDatetime
  | y1 :: y2 :: y3 :: y4 :: c1 :: m1 :: m2 :: c2 :: d1 :: d2 :: c3 ::
      h1 :: h2 :: c4 :: n1 :: n2 :: c5 :: s1 :: s2 :: rest =>
    if c1 = '-' ∧ c2 = '-' ∧ c3 = ' ' ∧ c4 = ':' ∧ c5 = ':' ∧
        ([y1, y2, y3, y4, m1, m2, d1, d2, h1, h2, n1, n2, s1, s2].all
          Char.isDigit) then
      let y := 1000 * digitVal y1 + 100 * digitVal y2 + 10 * digitVal y3 +
        digitVal y4
      let mo := 10 * digitVal m1 + digitVal m2
      let da := 10 * digitVal d1 + digitVal d2
      let ho := 10 * digitVal h1 + digitVal h2
      let mi := 10 * digitVal n1 + digitVal n2
      let se := 10 * digitVal s1 + digitVal s2
      if 1 ≤ y ∧ 1 ≤ mo ∧ mo ≤ 12 ∧ 1 ≤ da ∧ da ≤ daysInMonth y mo ∧
          ho ≤ 23 ∧ mi ≤ 59 ∧ se ≤ 59 then
        match rest with
        | [] => .ok (PyDatetime.mk y mo da ho mi se 0)
        | '.' :: f1 :: f2 :: f3 :: f4 :: f5 :: f6 :: [] =>
          if [f1, f2, f3, f4, f5, f6].all Char.isDigit then
            let micro := 100000 * digitVal f1 + 10000 * digitVal f2 +
              1000 * digitVal f3 + 100 * digitVal f4 + 10 * digitVal f5 +
              digitVal f6
            .ok (PyDatetime.mk y mo da ho mi se micro)
          else .error .valueError
        | _ => .error .valueError
      else .error .valueError
    else .error .valueError
  | _ => .error .valueError

/-- Replacement `value.replace("_", "-")` on the character list of a string. -/
def replaceUnderscores (l : List Char) : List Char :=
  l.map (fun c => if c = '_' then '-' else c)

/-- Function `datetime_from_string` (`value.py` lines 167-183), parameterized by the
external `dateutil.parser.parse` routine `p`.  `None` and falsy (empty)
inputs yield `None` without parsing; a successful parse is returned; on a
`ValueError` the function retries once on the input with underscores
replaced by hyphens if the input contains an underscore, else yields `None`;
only `ValueError` is caught, so any other exception from `p` propagates. -/
def datetimeFromString (p : List Char → Except PyErr PyDatetime) :
    Option (List Char) → Except PyErr (Option PyDatetime)
  | none => .ok none
  | some l =>
    if l.isEmpty then .ok none
    else
      match p l with
      | .ok d => .ok (some d)
      | .error .valueError =>
        if '_' ∈ l then datetimeFromString p (some (replaceUnderscores l))
        else .ok none
      | .error e => .error e
termination_by v => (v.getD []).count '_'
decreasing_by
  have h0 : (replaceUnderscores l).count '_' = 0 := by
    rw [List.count_eq_zero]
    intro hmem
    obtain ⟨c, -, hc⟩ := List.mem_map.mp hmem
    by_cases hcu : c = '_' <;> simp [hcu] at hc
  have h1 : 0 < l.count '_' := List.count_pos_iff.mpr (by assumption)
  simp only [Option.getD_some, h0]
  omega

/-! ## Helper lemmas -/

theorem map_noop {α : Type} (f : α → α) (l : List α) (h : ∀ x ∈ l, f x = x) :
    l.map f = l := by
  induction l with
  | nil => rfl
  | cons a t ih =>
    simp only [List.map_cons, h a (by simp),
      ih (fun x hx => h x (by simp [hx]))]

theorem mem_id_lt_nextId {r : JobRun} {rows : List JobRun} (h : r ∈ rows) :
    r.id < nextId rows := by
  have : r.id ≤ rows.foldr (fun r acc => max r.id acc) 0 := by
    induction rows with
    | nil => cases h
    | cons a t ih =>
      rcases List.mem_cons.mp h with h1 | h1
      · subst h1
        simp [List.foldr_cons, Nat.le_max_left]
      · calc r.id ≤ t.foldr (fun r acc => max r.id acc) 0 := ih h1
          _ ≤ max a.id (t.foldr (fun r acc => max r.id acc) 0) :=
            Nat.le_max_right _ _
  unfold nextId
  omega

theorem runStatusDescription_isSome_iff (v : Int) :
    (runStatusDescription v).isSome ↔ v = -1 ∨ v = 0 ∨ v = 1 := by
  unfold runStatusDescription
  by_cases h1 : v = 1 <;> by_cases h0 : v = 0 <;> by_cases hm : v = -1 <;>
    simp [h1, h0, hm]

/-- The new row the insert branch of the setter appends. -/
def insertedRow (sys : Sys) (js : JobState) (value : Int) : JobRun :=
  { id := nextId sys.rows, status := value, job_id := js.job_id,
    start_time := sys.clock, end_time := none }

theorem setRunStatus_insert (sys : Sys) (js : JobState) (value : Int)
    (hInv : Inv sys) (hrun : js.run_id = none)
    (hv : v = -1 ∨ v = 0 ∨ v = 1) (hveq : v = value) :
    setRunStatus sys js value =
      .ok ({ rows := sys.rows ++ [insertedRow sys js value],
             clock := sys.clock + 1 },
        { js with run_id := some (nextId sys.rows) }) := by
  subst hveq
  have hsome : (runStatusDescription v).isSome :=
    (runStatusDescription_isSome_iff v).mpr hv
  unfold setRunStatus
  rw [hrun]
  have hnone : (runStatusDescription v).isNone = false := by
    rcases hv with h | h | h <;> subst h <;> rfl
  simp only [hnone, Bool.false_eq_true, if_false]
  have hfind :
      selectIdByJobStart (sys.rows ++ [insertedRow sys js v]) js.job_id
        sys.clock = some (nextId sys.rows) := by
    unfold selectIdByJobStart
    rw [List.find?_append]
    have hfst : sys.rows.find?
        (fun r => decide (r.job_id = js.job_id ∧ r.start_time = sys.clock)) =
        none := by
      apply List.find?_eq_none.mpr
      intro r hr
      have := hInv r hr
      simp only [decide_eq_true_eq, not_and]
      intro
      omega
    rw [hfst]
    simp [insertedRow]
  simp only [insertedRow] at hfind
  simp [hfind, insertedRow]

theorem setRunStatus_update (sys : Sys) (js : JobState) (rid : Nat)
    (value : Int) (hrun : js.run_id = some rid) (hv : v = -1 ∨ v = 0 ∨ v = 1)
    (hveq : v = value) :
    setRunStatus sys js value =
      .ok (Sys.mk
        (sys.rows.map (fun r =>
          if r.id = rid then
            { r with status := value,
                     end_time := if value = -1 then none else some sys.clock }
          else r))
        (if value = -1 then sys.clock else sys.clock + 1),
        js) := by
  subst hveq
  unfold setRunStatus
  rw [hrun]
  have hnone : (runStatusDescription v).isNone = false := by
    rcases hv with h | h | h <;> subst h <;> rfl
  simp only [hnone, Bool.false_eq_true, if_false]

theorem setRunStatus_invalid (sys : Sys) (js : JobState) {v : Int}
    (h : ¬(v = -1 ∨ v = 0 ∨ v = 1)) :
    setRunStatus sys js v = .error .valueError := by
  have hnone : (runStatusDescription v).isNone = true := by
    push_neg at h
    unfold runStatusDescription
    simp [h.1, h.2.1, h.2.2]
  unfold setRunStatus
  simp [hnone]

theorem setRunStatus_ok_shape (sys : Sys) (js : JobState) (v : Int)
    (sys1 : Sys) (js1 : JobState)
    (hok : setRunStatus sys js v = .ok (sys1, js1)) :
    (v = -1 ∨ v = 0 ∨ v = 1) ∧
    ((js.run_id = none ∧ sys1.rows = sys.rows ++ [insertedRow sys js v]) ∨
      (∃ rid, js.run_id = some rid ∧ js1 = js ∧
        sys1.rows = sys.rows.map (fun r =>
          if r.id = rid then
            { r with status := v,
                     end_time := if v = -1 then none else some sys.clock }
          else r))) := by
  have hv : v = -1 ∨ v = 0 ∨ v = 1 := by
    by_contra hcon
    rw [setRunStatus_invalid sys js hcon] at hok
    cases hok
  refine ⟨hv, ?_⟩
  have hnone : (runStatusDescription v).isNone = false := by
    rcases hv with h | h | h <;> subst h <;> rfl
  unfold setRunStatus at hok
  rw [hnone] at hok
  simp only [Bool.false_eq_true, if_false] at hok
  split at hok
  · rename_i heqrun
    left
    refine ⟨heqrun, ?_⟩
    split at hok
    · cases hok
      rfl
    · cases hok
  · rename_i rid heqrun
    right
    cases hok
    exact ⟨rid, heqrun, rfl, rfl⟩

theorem inv_insert (sys : Sys) (js : JobState) (v : Int) (hInv : Inv sys) :
    Inv (Sys.mk (sys.rows ++ [insertedRow sys js v]) (sys.clock + 1)) := by
  intro r hr
  rcases List.mem_append.mp hr with h | h
  · have := hInv r h
    simp only
    omega
  · simp only [List.mem_singleton] at h
    subst h
    simp [insertedRow]

theorem inv_update (sys : Sys) (rid : Nat) (v : Int) (e : Option Nat)
    (c : Nat) (hc : sys.clock ≤ c) (hInv : Inv sys) :
    Inv (Sys.mk (sys.rows.map (fun r =>
      if r.id = rid then { r with status := v, end_time := e } else r)) c) := by
  intro r hr
  obtain ⟨r0, hr0, heq⟩ := List.mem_map.mp hr
  have h0 := hInv r0 hr0
  subst heq
  by_cases hid : r0.id = rid <;> simp only [hid, if_true, if_false] <;>
    simp <;> omega

theorem runProcs_all_ok (trace : List Nat) (ps : List Proc)
    (h : ∀ p ∈ ps, p.raises = none) :
    runProcs trace ps = (trace ++ ps.map Proc.pid, none) := by
  induction ps generalizing trace with
  | nil => simp [runProcs]
  | cons p rest ih =>
    have hp : p.raises = none := h p (by simp)
    have hstep : runProcs trace (p :: rest) = runProcs (trace ++ [p.pid]) rest := by
      simp [runProcs, hp]
    rw [hstep, ih (trace ++ [p.pid]) (fun q hq => h q (by simp [hq]))]
    simp

theorem runProcs_fails (trace : List Nat) (pre post : List Proc) (bad : Proc)
    (c : Nat) (hpre : ∀ p ∈ pre, p.raises = none) (hbad : bad.raises = some c) :
    runProcs trace (pre ++ bad :: post) =
      (trace ++ (pre ++ [bad]).map Proc.pid, some c) := by
  induction pre generalizing trace with
  | nil =>
    simp [runProcs, hbad]
  | cons p rest ih =>
    have hp : p.raises = none := hpre p (by simp)
    rw [List.cons_append]
    have hstep : runProcs trace (p :: (rest ++ bad :: post)) =
        runProcs (trace ++ [p.pid]) (rest ++ bad :: post) := by
      simp [runProcs, hp]
    rw [hstep, ih (trace ++ [p.pid]) (fun q hq => hpre q (by simp [hq]))]
    simp

/-- Executing a fresh, fully succeeding `Job` member: its run row is
inserted with status -1, all its procedures run, and the row is then updated
to status 1 with its `end_time` stamped; execution continues with the
remaining members. -/
theorem executeMembers_job_ok (sys : Sys) (j : PJob) (rest : List Member)
    (trace : List Nat) (hInv : Inv sys) (hrun : j.run_id = none)
    (hok : ∀ p ∈ j.procedures, p.raises = none) :
    executeMembers sys trace (.job j :: rest) =
      executeMembers
        (Sys.mk (sys.rows ++
            [JobRun.mk (nextId sys.rows) 1 j.job_id sys.clock
              (some (sys.clock + 1))])
          (sys.clock + 2))
        (trace ++ j.procedures.map Proc.pid) rest := by
  have hins := setRunStatus_insert sys (JobState.mk j.job_id j.run_id) (-1)
    hInv hrun (Or.inl rfl) rfl
  have hupd := setRunStatus_update
    (Sys.mk (sys.rows ++ [insertedRow sys (JobState.mk j.job_id j.run_id)
      (-1)]) (sys.clock + 1))
    (JobState.mk j.job_id (some (nextId sys.rows))) (nextId sys.rows) 1 rfl
    (Or.inr (Or.inr rfl)) rfl
  have hprocs := runProcs_all_ok trace j.procedures hok
  simp only [executeMembers, hins, hprocs, hupd]
  have hrows : (sys.rows ++ [insertedRow sys (JobState.mk j.job_id j.run_id)
      (-1)]).map (fun r =>
        if r.id = nextId sys.rows then
          { r with status := (1 : Int),
                   end_time := if (1 : Int) = -1 then none
                     else some (sys.clock + 1) }
        else r) =
      sys.rows ++ [JobRun.mk (nextId sys.rows) 1 j.job_id sys.clock
        (some (sys.clock + 1))] := by
    rw [List.map_append]
    rw [map_noop _ sys.rows (fun r hr => by
      have hlt := mem_id_lt_nextId hr
      have hne : ¬(r.id = nextId sys.rows) := by omega
      simp only [if_neg hne])]
    simp [insertedRow]
  simp only [hrows]
  norm_num

/-- Executing a fresh `Job` member one of whose procedures raises: the run
row is inserted with status -1 and NULL `end_time`, the procedures up to and
including the raising one run, and the exception aborts the whole pipeline
with the store left as written — no terminal update occurs and no later
member is reached. -/
theorem executeMembers_job_fails (sys : Sys) (j : PJob) (rest : List Member)
    (trace : List Nat) (pre post : List Proc) (bad : Proc) (c : Nat)
    (hInv : Inv sys) (hrun : j.run_id = none)
    (hsplit : j.procedures = pre ++ bad :: post)
    (hpre : ∀ p ∈ pre, p.raises = none) (hbad : bad.raises = some c) :
    executeMembers sys trace (.job j :: rest) =
      (Sys.mk (sys.rows ++
          [JobRun.mk (nextId sys.rows) (-1) j.job_id sys.clock none])
        (sys.clock + 1),
       trace ++ (pre ++ [bad]).map Proc.pid, some (.exc c)) := by
  have hins := setRunStatus_insert sys (JobState.mk j.job_id j.run_id) (-1)
    hInv hrun (Or.inl rfl) rfl
  have hprocs := runProcs_fails trace pre post bad c hpre hbad
  rw [← hsplit] at hprocs
  simp only [executeMembers, hins, hprocs]
  simp [insertedRow]

/-- The state after a fully successful job member still satisfies the
clock-freshness invariant. -/
theorem inv_after_job_ok (sys : Sys) (jid : Nat) (hInv : Inv sys) :
    Inv (Sys.mk (sys.rows ++
        [JobRun.mk (nextId sys.rows) 1 jid sys.clock (some (sys.clock + 1))])
      (sys.clock + 2)) := by
  intro r hr
  rcases List.mem_append.mp hr with h | h
  · have := hInv r h
    simp only
    omega
  · simp only [List.mem_singleton] at h
    subst h
    simp

theorem digitChar_isDigit (n : Nat) : (digitChar n).isDigit = true := by
  have h : n % 10 < 10 := Nat.mod_lt _ (by norm_num)
  have hall : ∀ k, k < 10 → (Char.ofNat (48 + k)).isDigit = true := by decide
  exact hall (n % 10) h

theorem digitVal_digitChar (n : Nat) : digitVal (digitChar n) = n % 10 := by
  have h : n % 10 < 10 := Nat.mod_lt _ (by norm_num)
  have hall : ∀ k, k < 10 → digitVal (Char.ofNat (48 + k)) = k := by decide
  exact hall (n % 10) h

/-- Core of the timestamp round trip: on every valid datetime, parsing the
writer's exact `isoformat(" ")` text recovers the datetime. -/
theorem parseIso_isoformat (d : PyDatetime) (h : ValidDatetime d) :
    parseIsoDatetime (isoformat d) = .ok d := by
  obtain ⟨y, mo, da, ho, mi, se, mic⟩ := d
  obtain ⟨h1, h2, h3, h4, h5, h6, h7, h8, h9, h10⟩ := h
  simp only at h1 h2 h3 h4 h5 h6 h7 h8 h9 h10
  have hdm : daysInMonth y mo ≤ 31 := by
    unfold daysInMonth
    split <;> try split <;> omega
  have hy : 1000 * (y / 1000 % 10) + 100 * (y / 100 % 10) +
      10 * (y / 10 % 10) + y % 10 = y := by omega
  have hmo : 10 * (mo / 10 % 10) + mo % 10 = mo := by omega
  have hda : 10 * (da / 10 % 10) + da % 10 = da := by omega
  have hho : 10 * (ho / 10 % 10) + ho % 10 = ho := by omega
  have hmi : 10 * (mi / 10 % 10) + mi % 10 = mi := by omega
  have hse : 10 * (se / 10 % 10) + se % 10 = se := by omega
  by_cases hm : mic = 0
  · simp only [isoformat, pad4, pad2, pad6, hm, if_pos rfl, List.cons_append,
      List.nil_append, List.append_nil]
    simp only [parseIsoDatetime, digitChar_isDigit, digitVal_digitChar,
      List.all_cons, List.all_nil, Bool.and_true, and_true, true_and]
    simp only [hy, hmo, hda, hho, hmi, hse]
    rw [if_pos True.intro,
      if_pos ⟨h1, h3, h4, h5, h6, h7, h8, h9⟩]
    simp
  · simp only [isoformat, pad4, pad2, pad6, List.cons_append,
      List.nil_append, List.append_nil]
    simp only [parseIsoDatetime, digitChar_isDigit, digitVal_digitChar,
      List.all_cons, List.all_nil, Bool.and_true, and_true, true_and]
    simp only [hy, hmo, hda, hho, hmi, hse]
    rw [if_pos True.intro,
      if_pos ⟨h1, h3, h4, h5, h6, h7, h8, h9⟩, if_neg hm]
    have hmic : 100000 * (mic / 100000 % 10) + 10000 * (mic / 10000 % 10) +
        1000 * (mic / 1000 % 10) + 100 * (mic / 100 % 10) +
        10 * (mic / 10 % 10) + mic % 10 = mic := by omega
    simp [digitChar_isDigit, digitVal_digitChar, hmic]

/-- On an input without underscores, `datetime_from_string` returns normally
whenever the parser only signals failure as `ValueError`. -/
theorem dtfs_no_underscore_total (p : List Char → Except PyErr PyDatetime)
    (hp : ∀ l e, p l = .error e → e = .valueError) (l : List Char)
    (hl : ¬('_' ∈ l)) :
    ∃ r, datetimeFromString p (some l) = .ok r := by
  rw [datetimeFromString]
  by_cases he : l.isEmpty
  · exact ⟨none, by simp [he]⟩
  · simp only [he, Bool.false_eq_true, if_false]
    cases hq : p l with
    | ok d => exact ⟨some d, by simp⟩
    | error e =>
      have hve := hp l e hq
      subst hve
      simp only [hl, if_false]
      exact ⟨none, rfl⟩

/-! ## Claim theorems -/

/-- C4: for statuses `s_1..s_N` of a batch's `Last_Job_Run` rows with
`N ≥ 1`, `Batch.status` returns 1 if every `s_i` equals 1, and -1 otherwise;
concretely `[1,1,1] ↦ 1`, `[1,0,1] ↦ -1`, `[1,-1,1] ↦ -1`. -/
theorem batch_status_all_complete :
    (∀ s : List Int, s ≠ [] →
      ((∀ x ∈ s, x = 1) → batchStatus s = 1) ∧
      ((∃ x ∈ s, x ≠ 1) → batchStatus s = -1)) ∧
    batchStatus [1, 1, 1] = 1 ∧ batchStatus [1, 0, 1] = -1 ∧
    batchStatus [1, -1, 1] = -1 := by
  refine ⟨?_, by decide, by decide, by decide⟩
  intro s _
  constructor
  · intro h
    unfold batchStatus
    have hall : s.all (fun x => x = 1) = true := by
      rw [List.all_eq_true]
      intro x hx
      exact decide_eq_true (h x hx)
    simp [hall]
  · rintro ⟨x, hx, hne⟩
    unfold batchStatus
    have hall : s.all (fun x => x = 1) = false := by
      rw [List.all_eq_false]
      exact ⟨x, hx, by simp [hne]⟩
    simp [hall]

/-- Witness for C4 at concrete inputs: `[1,0,1]` is a non-empty status list
with a non-1 entry, and the batch status is -1. -/
theorem batch_status_all_complete_witness : batchStatus [1, 0, 1] = -1 :=
  (batch_status_all_complete.1 [1, 0, 1] (by decide)).2
    ⟨0, by decide, by decide⟩

/-- C10: a batch with zero `Last_Job_Run` rows has status 1 — the
`all(...)` condition over an empty cursor is vacuously true — and the
corresponding status description is "complete". -/
theorem batch_status_empty_complete :
    batchStatus [] = 1 ∧
      runStatusDescription (batchStatus []) = some "complete" :=
  ⟨rfl, rfl⟩

/-- C7: when the to-, copy- and blind-copy address lists of a batch are all
empty, `send_notification` makes no `send_email_smtp` call, regardless of the
reply-to list. -/
theorem send_notification_no_recipients (name : String)
    (statuses : List Int) (a : NotificationAddresses)
    (h1 : a.to_addresses = []) (h2 : a.copy_addresses = [])
    (h3 : a.blind_copy_addresses = []) :
    sendNotification name statuses a = none := by
  unfold sendNotification
  simp [h1, h2, h3]

/-- Witness for C7: empty recipient lists with a populated reply-to list
still produce no send call. -/
theorem send_notification_no_recipients_witness :
    sendNotification "Nightly" [1]
      (NotificationAddresses.mk [] [] [] ["ops@example.com"]) = none :=
  send_notification_no_recipients "Nightly" [1]
    (NotificationAddresses.mk [] [] [] ["ops@example.com"]) rfl rfl rfl

/-- C2: assigning a status outside {-1, 0, 1} raises `ValueError` before any
database operation — the store and the instance are untouched because the
setter returns the error without producing a new state — and consequently a
successful setter call can only have written -1, 0 or 1: if every stored
status was in {-1, 0, 1} before, that still holds after. -/
theorem run_status_setter_valid_codes :
    (∀ (sys : Sys) (js : JobState) (v : Int),
      v ≠ -1 → v ≠ 0 → v ≠ 1 →
      setRunStatus sys js v = .error .valueError) ∧
    (∀ (sys : Sys) (js : JobState) (v : Int) (sys1 : Sys) (js1 : JobState),
      setRunStatus sys js v = .ok (sys1, js1) →
      (v = -1 ∨ v = 0 ∨ v = 1) ∧
      ((∀ r ∈ sys.rows, r.status = -1 ∨ r.status = 0 ∨ r.status = 1) →
        ∀ r ∈ sys1.rows, r.status = -1 ∨ r.status = 0 ∨ r.status = 1)) := by
  constructor
  · intro sys js v h1 h2 h3
    exact setRunStatus_invalid sys js (by tauto)
  · intro sys js v sys1 js1 hok
    obtain ⟨hv, hshape⟩ := setRunStatus_ok_shape sys js v sys1 js1 hok
    refine ⟨hv, ?_⟩
    intro hpre r hr
    rcases hshape with ⟨-, hrows⟩ | ⟨rid, -, -, hrows⟩
    · rw [hrows] at hr
      rcases List.mem_append.mp hr with h | h
      · exact hpre r h
      · simp only [List.mem_singleton] at h
        subst h
        simpa [insertedRow] using hv
    · rw [hrows] at hr
      obtain ⟨r0, hr0, heq⟩ := List.mem_map.mp hr
      subst heq
      by_cases hid : r0.id = rid
      · simpa [hid] using hv
      · simpa [hid] using hpre r0 hr0

/-- Witness for C2: writing status 5 to a fresh job over an empty store
raises `ValueError`, and a successful write of -1 over an empty store keeps
every stored status in {-1, 0, 1}. -/
theorem run_status_setter_valid_codes_witness :
    setRunStatus (Sys.mk [] 0) (JobState.mk 7 none) 5 =
      .error .valueError :=
  run_status_setter_valid_codes.1 (Sys.mk [] 0) (JobState.mk 7 none) 5
    (by decide) (by decide) (by decide)

/-- C3: the first `run_status` assignment (run_id still None) inserts exactly
one new `Job_Run` row — carrying the written status, the job's id and the
current clock reading as start time — and fixes `run_id` to that row's id;
every subsequent assignment (run_id already set) leaves `run_id` unchanged,
keeps the row count unchanged (no insert), leaves every row with a different
id untouched, and updates the row with id `run_id` in place. -/
theorem run_id_first_insert_then_stable :
    (∀ (sys : Sys) (js : JobState) (v : Int) (sys1 : Sys) (js1 : JobState),
      Inv sys → js.run_id = none →
      setRunStatus sys js v = .ok (sys1, js1) →
      sys1.rows = sys.rows ++
        [JobRun.mk (nextId sys.rows) v js.job_id sys.clock none] ∧
      js1.run_id = some (nextId sys.rows)) ∧
    (∀ (sys : Sys) (js : JobState) (rid : Nat) (v : Int) (sys1 : Sys)
      (js1 : JobState),
      js.run_id = some rid →
      setRunStatus sys js v = .ok (sys1, js1) →
      js1.run_id = some rid ∧
      sys1.rows.length = sys.rows.length ∧
      (∀ r ∈ sys.rows, r.id ≠ rid → r ∈ sys1.rows) ∧
      (∀ r ∈ sys.rows, r.id = rid →
        { r with status := v,
                 end_time := if v = -1 then none else some sys.clock } ∈
          sys1.rows)) := by
  constructor
  · intro sys js v sys1 js1 hInv hrun hok
    have hv := (setRunStatus_ok_shape sys js v sys1 js1 hok).1
    rw [setRunStatus_insert sys js v hInv hrun hv rfl] at hok
    cases hok
    exact ⟨rfl, rfl⟩
  · intro sys js rid v sys1 js1 hrun hok
    have hv := (setRunStatus_ok_shape sys js v sys1 js1 hok).1
    rw [setRunStatus_update sys js rid v hrun hv rfl] at hok
    cases hok
    refine ⟨hrun, by simp, ?_, ?_⟩
    · intro r hr hne
      exact List.mem_map.mpr ⟨r, hr, by simp [hne]⟩
    · intro r hr heq
      exact List.mem_map.mpr ⟨r, hr, by simp [heq]⟩

/-- Witness for C3: over the empty store, a fresh job's first write of -1
appends exactly the row `(id 1, status -1, job 7, start 0, end NULL)` and
fixes `run_id` to 1. -/
theorem run_id_first_insert_then_stable_witness :
    (Sys.mk [JobRun.mk 1 (-1) 7 0 none] 1).rows =
      (Sys.mk [] 0).rows ++
        [JobRun.mk (nextId (Sys.mk [] 0).rows) (-1) 7 0 none] ∧
    (JobState.mk 7 (some 1)).run_id = some (nextId (Sys.mk [] 0).rows) :=
  run_id_first_insert_then_stable.1 (Sys.mk [] 0) (JobState.mk 7 none) (-1)
    (Sys.mk [JobRun.mk 1 (-1) 7 0 none] 1) (JobState.mk 7 (some 1))
    (by decide) rfl rfl

/-- C9: the INSERT performed by a first `run_status` assignment never sets
`end_time` — every row the call adds has NULL `end_time`, even when the
first status written is terminal — a subsequent assignment of -1 sets the
target row's `end_time` back to NULL, and a subsequent assignment of 0 or 1
sets it to the current clock reading (non-NULL). -/
theorem end_time_write_semantics :
    (∀ (sys : Sys) (js : JobState) (v : Int) (sys1 : Sys) (js1 : JobState),
      js.run_id = none →
      setRunStatus sys js v = .ok (sys1, js1) →
      ∀ r ∈ sys1.rows, r ∉ sys.rows → r.end_time = none) ∧
    (∀ (sys : Sys) (js : JobState) (rid : Nat) (sys1 : Sys) (js1 : JobState),
      js.run_id = some rid →
      setRunStatus sys js (-1) = .ok (sys1, js1) →
      ∀ r ∈ sys1.rows, r.id = rid → r.end_time = none) ∧
    (∀ (sys : Sys) (js : JobState) (rid : Nat) (v : Int) (sys1 : Sys)
      (js1 : JobState),
      js.run_id = some rid → (v = 0 ∨ v = 1) →
      setRunStatus sys js v = .ok (sys1, js1) →
      ∀ r ∈ sys1.rows, r.id = rid → r.end_time = some sys.clock) := by
  refine ⟨?_, ?_, ?_⟩
  · intro sys js v sys1 js1 hrun hok r hr hnotin
    obtain ⟨-, hshape⟩ := setRunStatus_ok_shape sys js v sys1 js1 hok
    rcases hshape with ⟨-, hrows⟩ | ⟨rid, hrid, -, -⟩
    · rw [hrows] at hr
      rcases List.mem_append.mp hr with h | h
      · exact absurd h hnotin
      · simp only [List.mem_singleton] at h
        subst h
        rfl
    · rw [hrun] at hrid
      cases hrid
  · intro sys js rid sys1 js1 hrun hok r hr hid
    obtain ⟨-, hshape⟩ := setRunStatus_ok_shape sys js (-1) sys1 js1 hok
    rcases hshape with ⟨hnone, -⟩ | ⟨rid2, hrid2, -, hrows⟩
    · rw [hrun] at hnone
      cases hnone
    · rw [hrun] at hrid2
      cases hrid2
      rw [hrows] at hr
      obtain ⟨r0, hr0, heq⟩ := List.mem_map.mp hr
      by_cases h0 : r0.id = rid
      · rw [← heq]
        simp [h0]
      · rw [← heq] at hid
        simp [h0] at hid
  · intro sys js rid v sys1 js1 hrun hv hok r hr hid
    obtain ⟨-, hshape⟩ := setRunStatus_ok_shape sys js v sys1 js1 hok
    rcases hshape with ⟨hnone, -⟩ | ⟨rid2, hrid2, -, hrows⟩
    · rw [hrun] at hnone
      cases hnone
    · rw [hrun] at hrid2
      cases hrid2
      have hvne : ¬(v = -1) := by rcases hv with h | h <;> omega
      rw [hrows] at hr
      obtain ⟨r0, hr0, heq⟩ := List.mem_map.mp hr
      by_cases h0 : r0.id = rid
      · rw [← heq]
        simp [h0, hvne]
      · rw [← heq] at hid
        simp [h0] at hid

/-- Witness for C9: over a one-row store for run 1, writing status 1 through
a job whose `run_id` is 1 stamps the row's `end_time` with the clock. -/
theorem end_time_write_semantics_witness :
    ∀ r ∈ (Sys.mk [JobRun.mk 1 0 7 0 (some 4)] 5).rows, r.id = 1 →
      r.end_time = some (Sys.mk [JobRun.mk 1 (-1) 7 0 none] 4).clock :=
  end_time_write_semantics.2.2 (Sys.mk [JobRun.mk 1 (-1) 7 0 none] 4)
    (JobState.mk 7 (some 1)) 1 0 (Sys.mk [JobRun.mk 1 0 7 0 (some 4)] 5)
    (JobState.mk 7 (some 1)) rfl (by decide) rfl

/-- C1: for a pipeline with fresh job members `[A, B, C]` where all of A's
procedures succeed and some procedure of B raises (payload `c`),
`Pipeline.execute` runs exactly A's procedures followed by B's procedures up
to and including the first raising one — so no procedure of C is ever
invoked — the store gains exactly two rows: A's run row with terminal status
1, and B's run row created with status -1 and NULL `end_time` that never
receives a terminal write; and the exception propagates unchanged
(`PyErr.exc c`). -/
theorem pipeline_abort_on_member_failure (sys : Sys) (A B C : PJob)
    (bpre bpost : List Proc) (bbad : Proc) (c : Nat)
    (hInv : Inv sys) (hA : A.run_id = none) (hB : B.run_id = none)
    (hAok : ∀ p ∈ A.procedures, p.raises = none)
    (hBsplit : B.procedures = bpre ++ bbad :: bpost)
    (hpre : ∀ p ∈ bpre, p.raises = none) (hbad : bbad.raises = some c)
    (hCdisj : ∀ p ∈ C.procedures,
      p.pid ∉ (A.procedures ++ (bpre ++ [bbad])).map Proc.pid) :
    ∃ ra rb,
      (executeMembers sys [] [.job A, .job B, .job C]).1.rows =
        sys.rows ++ [ra, rb] ∧
      ra.job_id = A.job_id ∧ ra.status = 1 ∧
      rb.job_id = B.job_id ∧ rb.status = -1 ∧ rb.end_time = none ∧
      (executeMembers sys [] [.job A, .job B, .job C]).2.1 =
        (A.procedures ++ (bpre ++ [bbad])).map Proc.pid ∧
      (∀ p ∈ C.procedures,
        p.pid ∉ (executeMembers sys [] [.job A, .job B, .job C]).2.1) ∧
      (executeMembers sys [] [.job A, .job B, .job C]).2.2 =
        some (.exc c) := by
  have hstepA := executeMembers_job_ok sys A [.job B, .job C] [] hInv hA hAok
  have hInvA := inv_after_job_ok sys A.job_id hInv
  have hstepB := executeMembers_job_fails
    (Sys.mk (sys.rows ++
        [JobRun.mk (nextId sys.rows) 1 A.job_id sys.clock
          (some (sys.clock + 1))])
      (sys.clock + 2))
    B [.job C] (A.procedures.map Proc.pid) bpre bpost bbad c hInvA hB
    hBsplit hpre hbad
  have hrun : executeMembers sys [] [.job A, .job B, .job C] =
      (Sys.mk ((sys.rows ++
          [JobRun.mk (nextId sys.rows) 1 A.job_id sys.clock
            (some (sys.clock + 1))]) ++
          [JobRun.mk
            (nextId (sys.rows ++
              [JobRun.mk (nextId sys.rows) 1 A.job_id sys.clock
                (some (sys.clock + 1))]))
            (-1) B.job_id (sys.clock + 2) none])
        (sys.clock + 3),
       A.procedures.map Proc.pid ++ (bpre ++ [bbad]).map Proc.pid,
       some (.exc c)) := by
    rw [hstepA]
    simp only [List.nil_append] at hstepB ⊢
    rw [hstepB]
  refine ⟨JobRun.mk (nextId sys.rows) 1 A.job_id sys.clock
      (some (sys.clock + 1)),
    JobRun.mk
      (nextId (sys.rows ++
        [JobRun.mk (nextId sys.rows) 1 A.job_id sys.clock
          (some (sys.clock + 1))]))
      (-1) B.job_id (sys.clock + 2) none,
    ?_, rfl, rfl, rfl, rfl, rfl, ?_, ?_, ?_⟩
  · rw [hrun]
    simp
  · rw [hrun]
    simp
  · intro p hp
    rw [hrun]
    simpa using hCdisj p hp
  · rw [hrun]

/-- Witness for C1: a concrete three-job pipeline over the empty store in
which A's single procedure succeeds and B's single procedure raises with
payload 99; C's procedure (pid 30) never runs. -/
theorem pipeline_abort_on_member_failure_witness :
    ∃ ra rb,
      (executeMembers (Sys.mk [] 0) []
        [.job (PJob.mk 1 none [Proc.mk 10 none]),
         .job (PJob.mk 2 none [Proc.mk 20 (some 99)]),
         .job (PJob.mk 3 none [Proc.mk 30 none])]).1.rows =
        (Sys.mk [] 0).rows ++ [ra, rb] ∧
      ra.job_id = 1 ∧ ra.status = 1 ∧
      rb.job_id = 2 ∧ rb.status = -1 ∧ rb.end_time = none ∧
      (executeMembers (Sys.mk [] 0) []
        [.job (PJob.mk 1 none [Proc.mk 10 none]),
         .job (PJob.mk 2 none [Proc.mk 20 (some 99)]),
         .job (PJob.mk 3 none [Proc.mk 30 none])]).2.1 =
        ([Proc.mk 10 none] ++ ([] ++ [Proc.mk 20 (some 99)])).map Proc.pid ∧
      (∀ p ∈ [Proc.mk 30 none],
        p.pid ∉ (executeMembers (Sys.mk [] 0) []
          [.job (PJob.mk 1 none [Proc.mk 10 none]),
           .job (PJob.mk 2 none [Proc.mk 20 (some 99)]),
           .job (PJob.mk 3 none [Proc.mk 30 none])]).2.1) ∧
      (executeMembers (Sys.mk [] 0) []
        [.job (PJob.mk 1 none [Proc.mk 10 none]),
         .job (PJob.mk 2 none [Proc.mk 20 (some 99)]),
         .job (PJob.mk 3 none [Proc.mk 30 none])]).2.2 =
        some (.exc 99) :=
  pipeline_abort_on_member_failure (Sys.mk [] 0)
    (PJob.mk 1 none [Proc.mk 10 none])
    (PJob.mk 2 none [Proc.mk 20 (some 99)])
    (PJob.mk 3 none [Proc.mk 30 none])
    [] [] (Proc.mk 20 (some 99)) 99
    (by decide) rfl rfl (by decide) rfl (by decide) rfl (by decide)

/-- C5 (evaluation at the claim's inputs): the flat-string and
unsupported-type examples behave as claimed, but the mapping example yields
the empty list, not `["c@z.com"]` — a `dict` is `Iterable`, the `Iterable`
branch precedes the `dict` branch and iterates the keys, so the
`source.items()` branch is dead code and mapping values are never scanned. -/
theorem extract_email_addresses_eval :
    extractEmailAddresses (.pyStr "a@x.com, b@y.com") =
      ["a@x.com", "b@y.com"] ∧
    extractEmailAddresses
      (.pyDict [(.pyStr "k", .pyList [.pyStr "c@z.com"])]) = [] ∧
    extractEmailAddresses (.pyInt 42) = [] :=
  ⟨by decide, by decide, by decide⟩

/-- C6: parsing the exact `start_time` text the `Job.run_status` setter
writes — `d.isoformat(" ")` — with the reader's `datetime_from_string`
(backed by the ISO parse) recovers exactly the datetime that was written,
for every constructible datetime. -/
theorem start_time_round_trip (d : PyDatetime) (h : ValidDatetime d) :
    datetimeFromString parseIsoDatetime (some (isoformat d)) =
      .ok (some d) := by
  have hparse := parseIso_isoformat d h
  have hne : (isoformat d).isEmpty = false := by
    simp [isoformat, pad4]
  rw [datetimeFromString]
  simp [hne, hparse]

/-- Witness for C6: the timestamp 2023-05-01 12:34:56.789012 round-trips. -/
theorem start_time_round_trip_witness :
    datetimeFromString parseIsoDatetime
      (some (isoformat (PyDatetime.mk 2023 5 1 12 34 56 789012))) =
      .ok (some (PyDatetime.mk 2023 5 1 12 34 56 789012)) :=
  start_time_round_trip (PyDatetime.mk 2023 5 1 12 34 56 789012) (by decide)

/-- C8: provided the external parser signals parse failure as `ValueError`
(dateutil's `ParserError` is one), `datetime_from_string` never raises: every
input yields a normal return; `None` and the empty string yield `None`; and
on a `ValueError` for a string containing an underscore it retries with
underscores replaced by hyphens. -/
theorem datetime_from_string_never_raises
    (p : List Char → Except PyErr PyDatetime)
    (hp : ∀ l e, p l = .error e → e = .valueError) :
    (∀ v, ∃ r, datetimeFromString p v = .ok r) ∧
    datetimeFromString p none = .ok none ∧
    datetimeFromString p (some []) = .ok none ∧
    (∀ l, l ≠ [] → '_' ∈ l → p l = .error .valueError →
      datetimeFromString p (some l) =
        datetimeFromString p (some (replaceUnderscores l))) := by
  refine ⟨?_, by rw [datetimeFromString], ?_, ?_⟩
  · intro v
    cases v with
    | none => exact ⟨none, by rw [datetimeFromString]⟩
    | some l =>
      rw [datetimeFromString]
      by_cases he : l.isEmpty
      · exact ⟨none, by simp [he]⟩
      · simp only [he, Bool.false_eq_true, if_false]
        cases hq : p l with
        | ok d => exact ⟨some d, by simp⟩
        | error e =>
          have hve := hp l e hq
          subst hve
          by_cases hu : '_' ∈ l
          · simp only [hu, if_true]
            have hnu : ¬('_' ∈ replaceUnderscores l) := by
              intro hmem
              obtain ⟨c, -, hc⟩ := List.mem_map.mp hmem
              by_cases hcu : c = '_' <;> simp [hcu] at hc
            exact dtfs_no_underscore_total p hp _ hnu
          · simp only [hu, if_false]
            exact ⟨none, rfl⟩
  · rw [datetimeFromString]
    simp
  · intro l hne hu hq
    rw [datetimeFromString]
    have he : l.isEmpty = false := by
      cases l with
      | nil => exact absurd rfl hne
      | cons c t => rfl
    simp only [he, Bool.false_eq_true, if_false, hq, hu, if_true]

/-- Witness for C8: with a parser that always raises `ValueError`, parsing
`"a_b"` retries on `"a-b"` (the underscore-replaced text). -/
theorem datetime_from_string_never_raises_witness :
    datetimeFromString (fun _ => .error .valueError) (some ['a', '_', 'b']) =
      datetimeFromString (fun _ => .error .valueError)
        (some (replaceUnderscores ['a', '_', 'b'])) :=
  (datetime_from_string_never_raises (fun _ => .error .valueError)
    (fun l e h => by
      injection h with h2
      exact h2.symm)).2.2.2
    ['a', '_', 'b'] (by decide) (by decide) rfl

end ProcTools
